import Mathlib

/-!
Verification of the potential contrail coverage parameterizations
(Burkhardt et al., 2008; Koop, 2004) implemented in
`src/potential_contrail_coverage.py`.

Embedding conventions:
* A host-library floating-point value is modelled as `Option ℝ`:
  `some x` is the real value `x`, `none` models NaN (from a
  negative-radicand real square root).  Arithmetic propagates `none`, and
  any order comparison against `none` is false, mirroring IEEE
  NaN-comparison semantics used by the vectorized mask `RHi > RHi_star`.
  This simplified model is faithful under the nonzero-denominator
  hypotheses (`RHi_sat ≠ RHi_ci`) of the theorems stated over it; the
  division-by-zero case, where the host produces signed infinities that
  remain orderable, is settled over the exact value domain `FloatVal`
  (finite / `+inf` / `-inf` / NaN) defined further below, together with a
  proof that the two models agree whenever `RHi_sat ≠ RHi_ci`.
* A numpy array of humidities is a `List ℝ`; arrays produced by the
  functions are `List (Option ℝ)` since their elements may be NaN.
* For the frame property of the in-place masked assignment
  `B_cc_ci[RHi > RHi_star] = 1.0` we additionally give a heap model
  (`NpHeap`) where arrays are named by references and the masked
  assignment mutates one heap cell.
-/

namespace ContrailsGCM

open Classical

/-- A host-library float: `none` models NaN / an undefined numeric result. -/
abbrev NpFloat := Option ℝ

/-- Division in the simplified value model: the exact real quotient for a
nonzero denominator.  A zero denominator is collapsed to `none`; this is
only faithful under the `RHi_sat ≠ RHi_ci` hypotheses of the theorems
using it — the host's true division-by-zero results (signed infinity for a
nonzero numerator, NaN for `0/0`) are modelled exactly by `fdiv` below. -/
noncomputable def sdiv (x y : ℝ) : NpFloat :=
  if y = 0 then none else some (x / y)

/-- Real square root as performed by the host library (`r ** 0.5`):
a negative radicand produces NaN (`none`). -/
noncomputable def ssqrt (x : ℝ) : NpFloat :=
  if 0 ≤ x then some (Real.sqrt x) else none

/-- `get_cirrus_coverage(RHi, RHi_ci, RHi_sat)`: Equation 1 of Burkhardt
et al. (2008), `1 - (1 - (RHi - RHi_ci) / (RHi_sat - RHi_ci)) ** 0.5`,
on one element. -/
noncomputable def get_cirrus_coverage (RHi RHi_ci RHi_sat : ℝ) : NpFloat :=
  (sdiv (RHi - RHi_ci) (RHi_sat - RHi_ci)).bind fun q =>
    (ssqrt (1 - q)).map fun s => 1 - s

/-- `get_cirrus_coverage` applied elementwise to an array argument, as the
numpy expression broadcasts it. -/
noncomputable def get_cirrus_coverage_arr (RHi : List ℝ) (RHi_ci RHi_sat : ℝ) :
    List NpFloat :=
  RHi.map fun x => get_cirrus_coverage x RHi_ci RHi_sat

/-- `get_RHi_nuc(T) = 2.349 - T / 259`, the homogeneous freezing threshold
of Koop (2004). -/
noncomputable def get_RHi_nuc (T : ℝ) : ℝ :=
  2.349 - T / 259

/-- `get_RHi_star(RHi_sat, RHi_ci, RHi_cc) =
RHi_sat - (RHi_ci - RHi_cc)**2 / (RHi_sat - RHi_ci)` (Equation 3). -/
noncomputable def get_RHi_star (RHi_sat RHi_ci RHi_cc : ℝ) : NpFloat :=
  (sdiv ((RHi_ci - RHi_cc) ^ 2) (RHi_sat - RHi_ci)).map fun q => RHi_sat - q

/-- Elementwise comparison `x > t` of a real against a possibly-NaN
threshold: every comparison with NaN is false (IEEE semantics), which is
what the numpy mask `RHi > RHi_star` computes when `RHi_star` is NaN. -/
def npGT (x : ℝ) : NpFloat → Prop
  | some t => t < x
  | none => False

/-- `get_contrail_cirrus_coverage(RHi, RHi_ci, RHi_cc, RHi_sat)`:
computes `b_ci = np.maximum(0, get_cirrus_coverage(...))`, the scalar
`RHi_star`, the base array
`B_cc_ci = (RHi - RHi_cc) / (RHi_sat - RHi_ci) - b_ci * (1 - b_ci)`,
then performs the masked overwrite `B_cc_ci[RHi > RHi_star] = 1.0`
and returns the resulting array. -/
noncomputable def get_contrail_cirrus_coverage (RHi : List ℝ)
    (RHi_ci RHi_cc RHi_sat : ℝ) : List NpFloat :=
  let b_ci : List NpFloat :=
    (get_cirrus_coverage_arr RHi RHi_ci RHi_sat).map fun v =>
      v.map fun w => max 0 w
  let RHi_star : NpFloat := get_RHi_star RHi_sat RHi_ci RHi_cc
  let B_cc_ci : List NpFloat :=
    (RHi.zip b_ci).map fun p =>
      (sdiv (p.1 - RHi_cc) (RHi_sat - RHi_ci)).bind fun q =>
        p.2.map fun b => q - b * (1 - b)
  (RHi.zip B_cc_ci).map fun p => if npGT p.1 RHi_star then some 1 else p.2

/-- The value `get_contrail_cirrus_coverage` computes at one element of the
input array (derived elementwise form of the vectorized computation). -/
noncomputable def contrailElem (x RHi_ci RHi_cc RHi_sat : ℝ) : NpFloat :=
  if npGT x (get_RHi_star RHi_sat RHi_ci RHi_cc) then some 1
  else
    (sdiv (x - RHi_cc) (RHi_sat - RHi_ci)).bind fun q =>
      ((get_cirrus_coverage x RHi_ci RHi_sat).map fun w => max 0 w).map
        fun b => q - b * (1 - b)

/- Helper lemmas characterizing the vectorized computation. -/

theorem contrail_nil (ci cc sat : ℝ) :
    get_contrail_cirrus_coverage [] ci cc sat = [] := by
  simp [get_contrail_cirrus_coverage, get_cirrus_coverage_arr]

theorem contrail_cons (x : ℝ) (l : List ℝ) (ci cc sat : ℝ) :
    get_contrail_cirrus_coverage (x :: l) ci cc sat =
      contrailElem x ci cc sat :: get_contrail_cirrus_coverage l ci cc sat := by
  simp [get_contrail_cirrus_coverage, get_cirrus_coverage_arr, contrailElem]

theorem contrail_map (l : List ℝ) (ci cc sat : ℝ) :
    get_contrail_cirrus_coverage l ci cc sat =
      l.map fun x => contrailElem x ci cc sat := by
  induction l with
  | nil => simp [contrail_nil]
  | cons x xs ih => simp [contrail_cons, ih]

theorem contrail_length (l : List ℝ) (ci cc sat : ℝ) :
    (get_contrail_cirrus_coverage l ci cc sat).length = l.length := by
  simp [contrail_map]

theorem contrail_get (l : List ℝ) (ci cc sat : ℝ) (i : ℕ)
    (h : i < l.length) (h2 : i < (get_contrail_cirrus_coverage l ci cc sat).length) :
    (get_contrail_cirrus_coverage l ci cc sat).get ⟨i, h2⟩ =
      contrailElem (l.get ⟨i, h⟩) ci cc sat := by
  simp [contrail_map, List.get_eq_getElem]

theorem get_RHi_star_of_ne (sat ci cc : ℝ) (h : sat ≠ ci) :
    get_RHi_star sat ci cc = some (sat - (ci - cc) ^ 2 / (sat - ci)) := by
  have hd : sat - ci ≠ 0 := sub_ne_zero.mpr h
  simp [get_RHi_star, sdiv, hd]

theorem contrailElem_override (x ci cc sat : ℝ) (h : sat ≠ ci)
    (hx : sat - (ci - cc) ^ 2 / (sat - ci) < x) :
    contrailElem x ci cc sat = some 1 := by
  rw [contrailElem, get_RHi_star_of_ne sat ci cc h]
  exact if_pos hx

theorem contrailElem_base (x ci cc sat : ℝ) (h : sat ≠ ci)
    (hx : x ≤ sat - (ci - cc) ^ 2 / (sat - ci)) :
    contrailElem x ci cc sat =
      ((get_cirrus_coverage x ci sat).map fun w => max 0 w).map
        fun b => (x - cc) / (sat - ci) - b * (1 - b) := by
  have hd : sat - ci ≠ 0 := sub_ne_zero.mpr h
  rw [contrailElem, get_RHi_star_of_ne sat ci cc h,
    if_neg (by simp only [npGT]; exact not_lt.mpr hx)]
  simp [sdiv, hd]

/-- C1: for every input array `RHi` and thresholds with `RHi_sat ≠ RHi_ci`,
`get_contrail_cirrus_coverage` sets every output element whose `RHi` element
is strictly greater than `RHi_star = get_RHi_star RHi_sat RHi_ci RHi_cc` to
exactly `1.0`, unconditionally replacing the base-formula value there; in
particular with the defaults `RHi_ci = 0.6`, `RHi_cc = 0.4`, `RHi_sat = 1.0`
every element with `RHi > 0.9` maps to exactly `1.0`. -/
theorem C1_override_sets_one :
    (∀ (RHi : List ℝ) (ci cc sat : ℝ), sat ≠ ci →
      ∀ (i : ℕ) (h : i < RHi.length),
        sat - (ci - cc) ^ 2 / (sat - ci) < RHi.get ⟨i, h⟩ →
        ∀ (h2 : i < (get_contrail_cirrus_coverage RHi ci cc sat).length),
          (get_contrail_cirrus_coverage RHi ci cc sat).get ⟨i, h2⟩ = some 1) ∧
    (∀ (RHi : List ℝ) (i : ℕ) (h : i < RHi.length),
        (0.9 : ℝ) < RHi.get ⟨i, h⟩ →
        ∀ (h2 : i < (get_contrail_cirrus_coverage RHi 0.6 0.4 1).length),
          (get_contrail_cirrus_coverage RHi 0.6 0.4 1).get ⟨i, h2⟩ = some 1) := by
  constructor
  · intro RHi ci cc sat hne i h hlt h2
    rw [contrail_get RHi ci cc sat i h h2]
    exact contrailElem_override _ ci cc sat hne hlt
  · intro RHi i h hlt h2
    rw [contrail_get RHi 0.6 0.4 1 i h h2]
    refine contrailElem_override _ 0.6 0.4 1 (by norm_num) ?_
    calc (1 : ℝ) - (0.6 - 0.4) ^ 2 / (1 - 0.6) = 0.9 := by norm_num
    _ < RHi.get ⟨i, h⟩ := hlt

/-- Witness for C1: on the one-element array `[1.2]` with the default
thresholds, the output element (whose humidity exceeds `0.9`) is exactly
`1.0`. -/
theorem C1_override_sets_one_witness :
    get_contrail_cirrus_coverage [1.2] 0.6 0.4 1 = [some 1] := by
  have hlen : (get_contrail_cirrus_coverage [1.2] 0.6 0.4 1).length = 1 := by
    rw [contrail_length]; rfl
  have h2 : 0 < (get_contrail_cirrus_coverage [1.2] 0.6 0.4 1).length := by
    omega
  have hg := C1_override_sets_one.2 [1.2] 0 (by norm_num) (by norm_num) h2
  obtain ⟨a, ha⟩ := List.length_eq_one.mp hlen
  rw [List.get_of_eq ha] at hg
  simp only [List.get] at hg
  rw [ha, hg]

/-- C2: for every input array `RHi` and thresholds with `RHi_sat ≠ RHi_ci`,
every output element of `get_contrail_cirrus_coverage` whose `RHi` element
is `≤ RHi_star` equals the base formula
`(RHi - RHi_cc)/(RHi_sat - RHi_ci) - b_ci * (1 - b_ci)` with
`b_ci = max 0 (get_cirrus_coverage RHi RHi_ci RHi_sat)` computed
elementwise, with no clamping to `[0, 1]`: as the second conjunct shows on
the concrete input `[0]` with default thresholds, a value below `0`
(namely `-1`) is returned. -/
theorem C2_base_formula_no_clamp :
    (∀ (RHi : List ℝ) (ci cc sat : ℝ), sat ≠ ci →
      ∀ (i : ℕ) (h : i < RHi.length),
        RHi.get ⟨i, h⟩ ≤ sat - (ci - cc) ^ 2 / (sat - ci) →
        ∀ (h2 : i < (get_contrail_cirrus_coverage RHi ci cc sat).length),
          (get_contrail_cirrus_coverage RHi ci cc sat).get ⟨i, h2⟩ =
            ((get_cirrus_coverage (RHi.get ⟨i, h⟩) ci sat).map fun w => max 0 w).map
              fun b => (RHi.get ⟨i, h⟩ - cc) / (sat - ci) - b * (1 - b)) ∧
    get_contrail_cirrus_coverage [0] 0.6 0.4 1 = [some (-1)] := by
  constructor
  · intro RHi ci cc sat hne i h hle h2
    rw [contrail_get RHi ci cc sat i h h2]
    exact contrailElem_base _ ci cc sat hne hle
  · rw [contrail_map]
    simp only [List.map_cons, List.map_nil]
    congr 1
    rw [contrailElem, get_RHi_star_of_ne 1 0.6 0.4 (by norm_num)]
    have hc : get_cirrus_coverage 0 0.6 1 = some (1 - Real.sqrt 2.5) := by
      norm_num [get_cirrus_coverage, sdiv, ssqrt]
    have hmax : max 0 (1 - Real.sqrt 2.5) = 0 := by
      have h1 : (1 : ℝ) ≤ Real.sqrt 2.5 := Real.le_sqrt_of_sq_le (by norm_num)
      simp [max_eq_left, sub_nonpos.mpr h1]
    have hd : sdiv (0 - 0.4 : ℝ) (1 - 0.6) = some (-1) := by norm_num [sdiv]
    rw [if_neg (by norm_num [npGT]), hc, hd]
    simp only [Option.map_some', hmax, Option.bind_some]
    norm_num

/-- Witness for C2: on the one-element array `[0.5]` with the default
thresholds (`0.5 ≤ RHi_star = 0.9`), the output element equals the base
formula built from `max 0 (get_cirrus_coverage 0.5 0.6 1)`. -/
theorem C2_base_formula_no_clamp_witness :
    get_contrail_cirrus_coverage [0.5] 0.6 0.4 1 =
      [((get_cirrus_coverage 0.5 0.6 1).map fun w => max 0 w).map
        fun b => ((0.5 : ℝ) - 0.4) / (1 - 0.6) - b * (1 - b)] := by
  have hlen : (get_contrail_cirrus_coverage [0.5] 0.6 0.4 1).length = 1 := by
    rw [contrail_length]; rfl
  have h2 : 0 < (get_contrail_cirrus_coverage [0.5] 0.6 0.4 1).length := by
    omega
  have hg := C2_base_formula_no_clamp.1 [0.5] 0.6 0.4 1 (by norm_num) 0
    (by norm_num) (by norm_num) h2
  obtain ⟨a, ha⟩ := List.length_eq_one.mp hlen
  rw [List.get_of_eq ha] at hg
  simp only [List.get] at hg
  rw [ha, hg]

/-- C3: for every `RHi` (scalar, and elementwise over an array) and
thresholds with `RHi_ci ≠ RHi_sat` and nonnegative radicand
`1 - (RHi - RHi_ci)/(RHi_sat - RHi_ci)`, `get_cirrus_coverage` returns
`1 - sqrt (1 - (RHi - RHi_ci)/(RHi_sat - RHi_ci))`, with no internal
clamping of the radicand. -/
theorem C3_cirrus_formula :
    (∀ (RHi ci sat : ℝ), ci ≠ sat →
      0 ≤ 1 - (RHi - ci) / (sat - ci) →
      get_cirrus_coverage RHi ci sat =
        some (1 - Real.sqrt (1 - (RHi - ci) / (sat - ci)))) ∧
    (∀ (RHi : List ℝ) (ci sat : ℝ), ci ≠ sat →
      ∀ (i : ℕ) (h : i < RHi.length),
        0 ≤ 1 - (RHi.get ⟨i, h⟩ - ci) / (sat - ci) →
        ∀ (h2 : i < (get_cirrus_coverage_arr RHi ci sat).length),
          (get_cirrus_coverage_arr RHi ci sat).get ⟨i, h2⟩ =
            some (1 - Real.sqrt (1 - (RHi.get ⟨i, h⟩ - ci) / (sat - ci)))) := by
  have key : ∀ (x ci sat : ℝ), ci ≠ sat →
      0 ≤ 1 - (x - ci) / (sat - ci) →
      get_cirrus_coverage x ci sat =
        some (1 - Real.sqrt (1 - (x - ci) / (sat - ci))) := by
    intro x ci sat hne hr
    have hd : sat - ci ≠ 0 := sub_ne_zero.mpr (Ne.symm hne)
    have hr2 : (x - ci) / (sat - ci) ≤ 1 := by linarith
    rw [get_cirrus_coverage]
    simp [sdiv, hd, ssqrt, hr, hr2]
  refine ⟨key, ?_⟩
  intro RHi ci sat hne i h hr h2
  have : (get_cirrus_coverage_arr RHi ci sat).get ⟨i, h2⟩ =
      get_cirrus_coverage (RHi.get ⟨i, h⟩) ci sat := by
    simp [get_cirrus_coverage_arr, List.get_eq_getElem]
  rw [this, key _ ci sat hne hr]

/-- Witness for C3: at `RHi = 0.6`, `RHi_ci = 0.6`, `RHi_sat = 1` the
radicand is `1` and the formula value `1 - sqrt 1` is returned. -/
theorem C3_cirrus_formula_witness :
    get_cirrus_coverage 0.6 0.6 1 =
      some (1 - Real.sqrt (1 - ((0.6 : ℝ) - 0.6) / (1 - 0.6))) :=
  C3_cirrus_formula.1 0.6 0.6 1 (by norm_num) (by norm_num)

/-- C4: for every `RHi_sat`, `RHi_ci`, `RHi_cc` with `RHi_sat ≠ RHi_ci`,
`get_RHi_star` returns
`RHi_sat - (RHi_ci - RHi_cc)^2 / (RHi_sat - RHi_ci)`; in particular
`get_RHi_star 1 0.6 0.4 = 0.9`. -/
theorem C4_rhi_star_formula :
    (∀ (sat ci cc : ℝ), sat ≠ ci →
      get_RHi_star sat ci cc = some (sat - (ci - cc) ^ 2 / (sat - ci))) ∧
    get_RHi_star 1 0.6 0.4 = some 0.9 := by
  refine ⟨get_RHi_star_of_ne, ?_⟩
  rw [get_RHi_star_of_ne 1 0.6 0.4 (by norm_num)]
  norm_num

/-- Witness for C4: the closed formula evaluated at `(2, 1, 0.5)`. -/
theorem C4_rhi_star_formula_witness :
    get_RHi_star 2 1 0.5 = some (2 - ((1 : ℝ) - 0.5) ^ 2 / (2 - 1)) :=
  C4_rhi_star_formula.1 2 1 0.5 (by norm_num)

/-- The value domain of the host numeric library for the division-by-zero
analysis: an IEEE-style double is a finite real, a signed infinity, or NaN.
(`NpFloat`'s `none` conflates these; the theorems over `NpFloat` all assume
`RHi_sat ≠ RHi_ci`, where only NaN can arise, but the `RHi_sat = RHi_ci`
case produces signed infinities, so it is settled over this exact domain.) -/
inductive FloatVal where
  | finite (x : ℝ)
  | pinf
  | ninf
  | nan

/-- Exact host-library division: a nonzero numerator over a zero
denominator is a signed infinity, `0/0` is NaN (IEEE / numpy float64). -/
noncomputable def fdiv (x y : ℝ) : FloatVal :=
  if y = 0 then
    if x = 0 then .nan else if 0 < x then .pinf else .ninf
  else .finite (x / y)

/-- Subtraction of a host value from a finite real, `a - v`:
`a - (+inf) = -inf`, `a - (-inf) = +inf`, NaN propagates. -/
def fsubR (a : ℝ) : FloatVal → FloatVal
  | .finite x => .finite (a - x)
  | .pinf => .ninf
  | .ninf => .pinf
  | .nan => .nan

/-- Host real square root (`v ** 0.5`): NaN on negative radicands
(including `-inf`), `+inf` at `+inf`, NaN propagates. -/
noncomputable def fsqrt : FloatVal → FloatVal
  | .finite x => if 0 ≤ x then .finite (Real.sqrt x) else .nan
  | .pinf => .pinf
  | .ninf => .nan
  | .nan => .nan

/-- Host multiplication with the IEEE infinity/NaN rules
(`0 * ±inf = NaN`, NaN propagates). -/
noncomputable def fmul : FloatVal → FloatVal → FloatVal
  | .nan, _ => .nan
  | _, .nan => .nan
  | .finite x, .finite y => .finite (x * y)
  | .finite x, .pinf => if 0 < x then .pinf else if x < 0 then .ninf else .nan
  | .finite x, .ninf => if 0 < x then .ninf else if x < 0 then .pinf else .nan
  | .pinf, .finite y => if 0 < y then .pinf else if y < 0 then .ninf else .nan
  | .ninf, .finite y => if 0 < y then .ninf else if y < 0 then .pinf else .nan
  | .pinf, .pinf => .pinf
  | .pinf, .ninf => .ninf
  | .ninf, .pinf => .ninf
  | .ninf, .ninf => .pinf

/-- Host subtraction with the IEEE infinity/NaN rules
(`inf - inf = NaN`, NaN propagates). -/
def fsub : FloatVal → FloatVal → FloatVal
  | .nan, _ => .nan
  | _, .nan => .nan
  | .finite x, .finite y => .finite (x - y)
  | .finite _, .pinf => .ninf
  | .finite _, .ninf => .pinf
  | .pinf, .finite _ => .pinf
  | .ninf, .finite _ => .ninf
  | .pinf, .pinf => .nan
  | .pinf, .ninf => .pinf
  | .ninf, .pinf => .ninf
  | .ninf, .ninf => .nan

/-- `np.maximum(0, v)`: propagates NaN, clamps `-inf` to `0`,
keeps `+inf`. -/
def fmaxR0 : FloatVal → FloatVal
  | .finite x => .finite (max 0 x)
  | .pinf => .pinf
  | .ninf => .finite 0
  | .nan => .nan

/-- Host comparison `x > v`: false against NaN and `+inf`, true against
`-inf` — this is the comparison the mask `RHi > RHi_star` performs. -/
def fGT (x : ℝ) : FloatVal → Prop
  | .finite t => t < x
  | .pinf => False
  | .ninf => True
  | .nan => False

/-- `get_cirrus_coverage` over the exact host value domain. -/
noncomputable def get_cirrus_coverage_f (RHi RHi_ci RHi_sat : ℝ) : FloatVal :=
  fsubR 1 (fsqrt (fsubR 1 (fdiv (RHi - RHi_ci) (RHi_sat - RHi_ci))))

/-- `get_RHi_star` over the exact host value domain. -/
noncomputable def get_RHi_star_f (RHi_sat RHi_ci RHi_cc : ℝ) : FloatVal :=
  fsubR RHi_sat (fdiv ((RHi_ci - RHi_cc) ^ 2) (RHi_sat - RHi_ci))

/-- One element of `get_contrail_cirrus_coverage` over the exact host value
domain: the base formula with `b_ci = np.maximum(0, get_cirrus_coverage)`,
overwritten by `1.0` where `RHi > RHi_star`. -/
noncomputable def contrailElem_f (x RHi_ci RHi_cc RHi_sat : ℝ) : FloatVal :=
  if fGT x (get_RHi_star_f RHi_sat RHi_ci RHi_cc) then .finite 1
  else
    fsub (fdiv (x - RHi_cc) (RHi_sat - RHi_ci))
      (fmul (fmaxR0 (get_cirrus_coverage_f x RHi_ci RHi_sat))
        (fsubR 1 (fmaxR0 (get_cirrus_coverage_f x RHi_ci RHi_sat))))

/-- `get_contrail_cirrus_coverage` over the exact host value domain. -/
noncomputable def get_contrail_cirrus_coverage_f (RHi : List ℝ)
    (RHi_ci RHi_cc RHi_sat : ℝ) : List FloatVal :=
  RHi.map fun x => contrailElem_f x RHi_ci RHi_cc RHi_sat

/-- Embedding of the simplified value model into the exact one: under
`RHi_sat ≠ RHi_ci` the only undefined value is NaN, which `none` denotes. -/
def toFloat : NpFloat → FloatVal
  | some x => .finite x
  | none => .nan

theorem get_RHi_star_f_of_ne (sat ci cc : ℝ) (h : sat ≠ ci) :
    get_RHi_star_f sat ci cc = .finite (sat - (ci - cc) ^ 2 / (sat - ci)) := by
  have hd : sat - ci ≠ 0 := sub_ne_zero.mpr h
  simp [get_RHi_star_f, fdiv, hd, fsubR]

theorem get_RHi_star_f_ninf (ci cc : ℝ) (h : ci ≠ cc) :
    get_RHi_star_f ci ci cc = .ninf := by
  have hsub : ci - cc ≠ 0 := sub_ne_zero.mpr h
  have h2 : (0 : ℝ) < (ci - cc) ^ 2 := by positivity
  simp [get_RHi_star_f, fdiv, sub_self, h2.ne', h2, fsubR]

theorem get_RHi_star_f_nan (ci : ℝ) : get_RHi_star_f ci ci ci = .nan := by
  norm_num [get_RHi_star_f, fdiv, sub_self, fsubR]

theorem contrailElem_f_agree (x ci cc sat : ℝ) (h : sat ≠ ci) :
    contrailElem_f x ci cc sat = toFloat (contrailElem x ci cc sat) := by
  have hd : sat - ci ≠ 0 := sub_ne_zero.mpr h
  rw [contrailElem_f, contrailElem, get_RHi_star_f_of_ne sat ci cc h,
    get_RHi_star_of_ne sat ci cc h]
  simp only [fGT, npGT]
  by_cases hx : sat - (ci - cc) ^ 2 / (sat - ci) < x
  · rw [if_pos hx, if_pos hx]
    rfl
  · rw [if_neg hx, if_neg hx]
    by_cases hr : 0 ≤ 1 - (x - ci) / (sat - ci)
    · have hr2 : (x - ci) / (sat - ci) ≤ 1 := by linarith
      have hcf : get_cirrus_coverage_f x ci sat =
          .finite (1 - Real.sqrt (1 - (x - ci) / (sat - ci))) := by
        simp [get_cirrus_coverage_f, fdiv, hd, fsubR, fsqrt, hr, hr2]
      have hco : get_cirrus_coverage x ci sat =
          some (1 - Real.sqrt (1 - (x - ci) / (sat - ci))) := by
        simp [get_cirrus_coverage, sdiv, hd, ssqrt, hr, hr2]
      rw [hcf, hco]
      simp [fdiv, hd, sdiv, fmaxR0, fsubR, fmul, fsub, toFloat]
    · have hr2 : ¬ (x - ci) / (sat - ci) ≤ 1 := by
        push_neg
        push_neg at hr
        linarith
      have hcf : get_cirrus_coverage_f x ci sat = .nan := by
        simp [get_cirrus_coverage_f, fdiv, hd, fsubR, fsqrt, hr, hr2]
      have hco : get_cirrus_coverage x ci sat = none := by
        simp [get_cirrus_coverage, sdiv, hd, ssqrt, hr, hr2]
      rw [hcf, hco]
      simp [fdiv, hd, sdiv, fmaxR0, fmul, fsub, toFloat]

theorem contrailElem_f_allone (x ci cc : ℝ) (h : ci ≠ cc) :
    contrailElem_f x ci cc ci = .finite 1 := by
  rw [contrailElem_f, get_RHi_star_f_ninf ci cc h]
  exact if_pos (by simp [fGT])

theorem contrailElem_f_deg (x ci : ℝ) :
    contrailElem_f x ci ci ci =
      if x < ci then FloatVal.ninf else FloatVal.nan := by
  rw [contrailElem_f, get_RHi_star_f_nan]
  rw [if_neg (by simp [fGT])]
  rcases lt_trichotomy x ci with hlt | heq | hgt
  · have hne : x - ci ≠ 0 := sub_ne_zero.mpr (ne_of_lt hlt)
    have hneg : ¬ (0 : ℝ) < x - ci := by
      push_neg
      linarith
    have hc : get_cirrus_coverage_f x ci ci = .ninf := by
      simp [get_cirrus_coverage_f, fdiv, sub_self, hne, hneg, fsubR, fsqrt]
    simp [hc, fmaxR0, fsubR, fmul, fdiv, sub_self, hne, hneg, fsub, hlt]
  · subst heq
    have hc : get_cirrus_coverage_f x x x = .nan := by
      simp [get_cirrus_coverage_f, fdiv, sub_self, fsubR, fsqrt]
    simp [hc, fmaxR0, fmul, fdiv, sub_self, fsub, lt_irrefl]
  · have hne : x - ci ≠ 0 := sub_ne_zero.mpr (ne_of_gt hgt)
    have hpos : (0 : ℝ) < x - ci := by linarith
    have hnlt : ¬ x < ci := not_lt.mpr (le_of_lt hgt)
    have hc : get_cirrus_coverage_f x ci ci = .nan := by
      simp [get_cirrus_coverage_f, fdiv, sub_self, hne, hpos, fsubR, fsqrt]
    simp [hc, fmaxR0, fmul, fdiv, sub_self, hne, hpos, fsub, hnlt]

/-- C5: division by zero happens in `get_RHi_star` (and inside
`get_contrail_cirrus_coverage`) exactly when `RHi_sat = RHi_ci`, and the
host's standard IEEE result propagates without interception: for
`RHi_sat ≠ RHi_ci` the star is the finite formula value; for
`RHi_sat = RHi_ci` it is `-inf` (when `RHi_ci ≠ RHi_cc`, since
`RHi_sat - (+inf) = -inf`) or NaN (when `RHi_ci = RHi_cc`, from `0/0`);
consequently `get_contrail_cirrus_coverage` then returns all `1.0`
(the mask `RHi > -inf` is all-true) resp. the propagated `-inf`/NaN
base values (a NaN mask selects nothing) — never a wrapped or structured
error; and for `RHi_sat ≠ RHi_ci` the exact-domain function agrees with
the finite/NaN model, so no division-by-zero infinity ever occurs. -/
theorem C5_division_by_zero :
    (∀ (sat ci cc : ℝ), sat ≠ ci →
      get_RHi_star_f sat ci cc =
        FloatVal.finite (sat - (ci - cc) ^ 2 / (sat - ci))) ∧
    (∀ (ci cc : ℝ), ci ≠ cc → get_RHi_star_f ci ci cc = FloatVal.ninf) ∧
    (∀ ci : ℝ, get_RHi_star_f ci ci ci = FloatVal.nan) ∧
    (∀ (RHi : List ℝ) (ci cc : ℝ), ci ≠ cc →
      get_contrail_cirrus_coverage_f RHi ci cc ci =
        RHi.map fun _ => FloatVal.finite 1) ∧
    (∀ (RHi : List ℝ) (ci : ℝ),
      get_contrail_cirrus_coverage_f RHi ci ci ci =
        RHi.map fun x => if x < ci then FloatVal.ninf else FloatVal.nan) ∧
    (∀ (RHi : List ℝ) (ci cc sat : ℝ), sat ≠ ci →
      get_contrail_cirrus_coverage_f RHi ci cc sat =
        (get_contrail_cirrus_coverage RHi ci cc sat).map toFloat) := by
  refine ⟨get_RHi_star_f_of_ne, get_RHi_star_f_ninf, get_RHi_star_f_nan,
    ?_, ?_, ?_⟩
  · intro RHi ci cc h
    rw [get_contrail_cirrus_coverage_f]
    exact List.map_congr_left fun x _ => contrailElem_f_allone x ci cc h
  · intro RHi ci
    rw [get_contrail_cirrus_coverage_f]
    exact List.map_congr_left fun x _ => contrailElem_f_deg x ci
  · intro RHi ci cc sat h
    rw [get_contrail_cirrus_coverage_f, contrail_map, List.map_map]
    exact List.map_congr_left fun x _ => contrailElem_f_agree x ci cc sat h

/-- Witness for C5: with `RHi_sat = RHi_ci = 1` and `RHi_cc = 0.4` the
star is `-inf` and the output over `[0.5]` is exactly `[1.0]`, the host
division-by-zero infinity having propagated into the mask. -/
theorem C5_division_by_zero_witness :
    get_RHi_star_f 1 1 0.4 = FloatVal.ninf ∧
    get_contrail_cirrus_coverage_f [0.5] 1 0.4 1 = [FloatVal.finite 1] := by
  refine ⟨C5_division_by_zero.2.1 1 0.4 (by norm_num), ?_⟩
  have h := C5_division_by_zero.2.2.2.1 [0.5] 1 0.4 (by norm_num)
  simpa using h

/-- C6: under the physical ordering `RHi_cc < RHi_ci < RHi_sat`, the value
of `get_RHi_star` is strictly below `RHi_sat`, so every element with
`RHi > RHi_sat` — where `get_cirrus_coverage` has a negative radicand and
yields the undefined host value (`none`) — also satisfies the override
condition, and `get_contrail_cirrus_coverage` returns exactly `1.0` there:
the undefined intermediate never reaches the output. -/
theorem C6_undefined_masked_by_override :
    ∀ (ci cc sat : ℝ), cc < ci → ci < sat →
      (∃ s, get_RHi_star sat ci cc = some s ∧ s < sat) ∧
      (∀ (RHi : List ℝ) (i : ℕ) (h : i < RHi.length),
        sat < RHi.get ⟨i, h⟩ →
        get_cirrus_coverage (RHi.get ⟨i, h⟩) ci sat = none ∧
        ∀ (h2 : i < (get_contrail_cirrus_coverage RHi ci cc sat).length),
          (get_contrail_cirrus_coverage RHi ci cc sat).get ⟨i, h2⟩ = some 1) := by
  intro ci cc sat hcc hci
  have hne : sat ≠ ci := ne_of_gt hci
  have hd : (0 : ℝ) < sat - ci := sub_pos.mpr hci
  have hq : (0 : ℝ) < (ci - cc) ^ 2 / (sat - ci) :=
    div_pos (pow_pos (sub_pos.mpr hcc) 2) hd
  have hstar : sat - (ci - cc) ^ 2 / (sat - ci) < sat := by linarith
  have key : ∀ x : ℝ, sat < x → get_cirrus_coverage x ci sat = none := by
    intro x hgt
    have h1 : (1 : ℝ) < (x - ci) / (sat - ci) :=
      (one_lt_div hd).mpr (by linarith)
    have hrad : ¬ (0 : ℝ) ≤ 1 - (x - ci) / (sat - ci) := by
      push_neg
      linarith
    have hdne : sat - ci ≠ 0 := ne_of_gt hd
    rw [get_cirrus_coverage]
    simp [sdiv, hdne, ssqrt, hrad, h1]
  refine ⟨⟨_, get_RHi_star_of_ne sat ci cc hne, hstar⟩, ?_⟩
  intro RHi i h hgt
  constructor
  · exact key _ hgt
  · intro h2
    rw [contrail_get RHi ci cc sat i h h2]
    exact contrailElem_override _ ci cc sat hne (by linarith)

/-- Witness for C6: with default thresholds and `RHi = 1.5 > RHi_sat = 1`,
the cirrus intermediate is the undefined value, yet the output is `1.0`. -/
theorem C6_undefined_masked_by_override_witness :
    get_cirrus_coverage 1.5 0.6 1 = none ∧
    get_contrail_cirrus_coverage [1.5] 0.6 0.4 1 = [some 1] := by
  have h := (C6_undefined_masked_by_override 0.6 0.4 1 (by norm_num)
    (by norm_num)).2 [1.5] 0 (by norm_num) (by norm_num)
  have hlen : (get_contrail_cirrus_coverage [1.5] 0.6 0.4 1).length = 1 := by
    rw [contrail_length]; rfl
  have h2 : 0 < (get_contrail_cirrus_coverage [1.5] 0.6 0.4 1).length := by
    omega
  have hg := h.2 h2
  obtain ⟨a, ha⟩ := List.length_eq_one.mp hlen
  rw [List.get_of_eq ha] at hg
  simp only [List.get] at hg
  refine ⟨by simpa using h.1, by rw [ha, hg]⟩

/-- C7: for all thresholds with `RHi_ci < RHi_sat`, `get_cirrus_coverage`
returns exactly `0` at `RHi = RHi_ci` and exactly `1` at `RHi = RHi_sat`. -/
theorem C7_boundary_values :
    ∀ (ci sat : ℝ), ci < sat →
      get_cirrus_coverage ci ci sat = some 0 ∧
      get_cirrus_coverage sat ci sat = some 1 := by
  intro ci sat hlt
  have hd : sat - ci ≠ 0 := sub_ne_zero.mpr (ne_of_gt hlt)
  constructor
  · rw [get_cirrus_coverage]
    norm_num [sdiv, hd, ssqrt, Real.sqrt_one]
  · rw [get_cirrus_coverage]
    norm_num [sdiv, hd, ssqrt, div_self hd, Real.sqrt_zero]

/-- Witness for C7: the boundary values with the default thresholds. -/
theorem C7_boundary_values_witness :
    get_cirrus_coverage 0.6 0.6 1 = some 0 ∧
    get_cirrus_coverage 1 0.6 1 = some 1 :=
  C7_boundary_values 0.6 1 (by norm_num)

/-- C8: `get_RHi_nuc T = 2.349 - T / 259` for every temperature `T`, with
no domain restriction; in particular it returns `0` at `T = 259 * 2.349`,
`2.349` at `T = 0`, and `1.349` at `T = 259`. -/
theorem C8_freezing_threshold :
    (∀ T : ℝ, get_RHi_nuc T = 2.349 - T / 259) ∧
    get_RHi_nuc (259 * 2.349) = 0 ∧
    get_RHi_nuc 0 = 2.349 ∧
    get_RHi_nuc 259 = 1.349 := by
  refine ⟨fun T => rfl, ?_, ?_, ?_⟩ <;> norm_num [get_RHi_nuc]

/-- C9: for every input array `RHi`, the arrays returned by
`get_cirrus_coverage_arr` and `get_contrail_cirrus_coverage` have the same
length as `RHi`, and output element `i` is a function of input element `i`
only (`get_cirrus_coverage`, resp. `contrailElem`, of that element). -/
theorem C9_shape_preservation :
    ∀ (RHi : List ℝ) (ci cc sat : ℝ),
      (get_cirrus_coverage_arr RHi ci sat).length = RHi.length ∧
      (get_contrail_cirrus_coverage RHi ci cc sat).length = RHi.length ∧
      (∀ (i : ℕ) (h : i < RHi.length)
          (h2 : i < (get_cirrus_coverage_arr RHi ci sat).length),
        (get_cirrus_coverage_arr RHi ci sat).get ⟨i, h2⟩ =
          get_cirrus_coverage (RHi.get ⟨i, h⟩) ci sat) ∧
      (∀ (i : ℕ) (h : i < RHi.length)
          (h2 : i < (get_contrail_cirrus_coverage RHi ci cc sat).length),
        (get_contrail_cirrus_coverage RHi ci cc sat).get ⟨i, h2⟩ =
          contrailElem (RHi.get ⟨i, h⟩) ci cc sat) := by
  intro RHi ci cc sat
  refine ⟨by simp [get_cirrus_coverage_arr], contrail_length RHi ci cc sat,
    ?_, fun i h h2 => contrail_get RHi ci cc sat i h h2⟩
  intro i h h2
  simp [get_cirrus_coverage_arr, List.get_eq_getElem]

/-- Witness for C9: on the array `[0.5, 1.2]` with default thresholds, both
outputs have length 2 and element `1` is the elementwise image of `1.2`. -/
theorem C9_shape_preservation_witness :
    (get_cirrus_coverage_arr [0.5, 1.2] 0.6 1).length = 2 ∧
    (get_contrail_cirrus_coverage [0.5, 1.2] 0.6 0.4 1).length = 2 ∧
    (get_contrail_cirrus_coverage [0.5, 1.2] 0.6 0.4 1).get
      ⟨1, by rw [contrail_length]; norm_num⟩ = contrailElem 1.2 0.6 0.4 1 := by
  have hc := C9_shape_preservation [0.5, 1.2] 0.6 0.4 1
  have hg := hc.2.2.2 1 (by norm_num) (by rw [contrail_length]; norm_num)
  exact ⟨by simpa using hc.1, by simpa using hc.2.1, by simpa using hg⟩

/-- A heap of host-library array objects; a numpy array object is named by
its index (reference) into the heap. -/
structure NpHeap where
  arrays : List (List NpFloat)

/-- Read the array object named by reference `r` (empty if dangling). -/
def readA (s : NpHeap) (r : ℕ) : List NpFloat :=
  s.arrays.getD r []

/-- Allocate a fresh array object holding `v`; returns the new heap and the
fresh reference. -/
def alloc (s : NpHeap) (v : List NpFloat) : NpHeap × ℕ :=
  (⟨s.arrays ++ [v]⟩, s.arrays.length)

/-- In-place masked assignment `a[mask] = v` on the array object named by
`r`: the elements at positions where `mask` holds are overwritten with `v`;
no other heap cell is touched. -/
noncomputable def writeMasked (s : NpHeap) (r : ℕ) (mask : List Prop)
    (v : NpFloat) : NpHeap :=
  ⟨s.arrays.set r (((s.arrays.getD r []).zip mask).map fun p =>
    if p.2 then v else p.1)⟩

/-- Heap-level model of `get_contrail_cirrus_coverage`: the input array is
the heap object named `rRHi` (its elements may themselves be NaN); `b_ci`
and `B_cc_ci` are freshly allocated result arrays, and the masked overwrite
`B_cc_ci[RHi > RHi_star] = 1.0` mutates the `B_cc_ci` object in place.
Returns the final heap and the reference of the returned array. -/
noncomputable def get_contrail_cirrus_coverage_heap (s : NpHeap) (rRHi : ℕ)
    (RHi_ci RHi_cc RHi_sat : ℝ) : NpHeap × ℕ :=
  let RHi := readA s rRHi
  let sb := alloc s (RHi.map fun x? =>
    (x?.bind fun x => get_cirrus_coverage x RHi_ci RHi_sat).map fun w => max 0 w)
  let b_ci := readA sb.1 sb.2
  let RHi_star := get_RHi_star RHi_sat RHi_ci RHi_cc
  let sB := alloc sb.1 ((RHi.zip b_ci).map fun p =>
    p.1.bind fun x => (sdiv (x - RHi_cc) (RHi_sat - RHi_ci)).bind fun q =>
      p.2.map fun b => q - b * (1 - b))
  let s3 := writeMasked sB.1 sB.2
    (RHi.map fun x? => ∃ x, x? = some x ∧ npGT x RHi_star) (some 1)
  (s3, sB.2)

/-- C10: `get_contrail_cirrus_coverage` never modifies its input array: the
masked overwrite is performed on the freshly allocated `B_cc_ci` object (a
reference distinct from the input's), so the input array object holds the
same element values after the call as before. -/
theorem C10_input_array_unmodified :
    ∀ (s : NpHeap) (rRHi : ℕ) (ci cc sat : ℝ), rRHi < s.arrays.length →
      readA (get_contrail_cirrus_coverage_heap s rRHi ci cc sat).1 rRHi =
        readA s rRHi ∧
      (get_contrail_cirrus_coverage_heap s rRHi ci cc sat).2 ≠ rRHi := by
  intro s rRHi ci cc sat hr
  constructor
  · simp only [get_contrail_cirrus_coverage_heap, alloc, writeMasked, readA]
    rw [List.getD_eq_getElem?_getD, List.getD_eq_getElem?_getD]
    rw [List.getElem?_set_ne (by simp [List.length_append]; omega)]
    rw [List.getElem?_append_left (by simp [List.length_append]; omega),
      List.getElem?_append_left hr]
  · simp only [get_contrail_cirrus_coverage_heap, alloc]
    simp [List.length_append]
    omega

/-- Witness for C10: a one-object heap holding the input `[0.5]`; after the
call the input object still holds `[0.5]`. -/
theorem C10_input_array_unmodified_witness :
    readA (get_contrail_cirrus_coverage_heap ⟨[[some 0.5]]⟩ 0 0.6 0.4 1).1 0 =
      readA ⟨[[some 0.5]]⟩ 0 ∧
    (get_contrail_cirrus_coverage_heap ⟨[[some 0.5]]⟩ 0 0.6 0.4 1).2 ≠ 0 :=
  C10_input_array_unmodified ⟨[[some 0.5]]⟩ 0 0.6 0.4 1 (by norm_num)

end ContrailsGCM
